import Mathlib

/-!
Verification of the Jenkins extension core of this repository: the
configuration resolver (`config.ts`), the credential store (`keychain.ts`),
the remote client (`client.ts`) and the authorized action surface
(`tools/index.ts`).  Each definition below is a shallow embedding of the
corresponding TypeScript function; runtime JSON values are modelled by the
inductive type `JValue`, environments and the platform secret vault are
passed explicitly, and fallible functions return `Except`/`Option`.
-/

namespace Jenkins

/-- JSON-like runtime values as delivered to the TypeScript code.
`jint` is an integral JavaScript number (with its exact value), `jnonint`
is a non-integral number carried by its display text (its numeric value is
irrelevant to every function modelled here beyond `Number.isInteger`
failing on it). -/
inductive JValue where
  | jnull
  | jbool (b : Bool)
  | jint (n : Int)
  | jnonint (text : String)
  | jstr (s : String)
  | jarr (xs : List JValue)
  | jobj (fields : List (String × JValue))
deriving Repr, BEq

/-- Property lookup on an object field list (JavaScript `obj.key`);
`none` models `undefined`. -/
def lookupField (fields : List (String × JValue)) (k : String) : Option JValue :=
  match fields with
  | [] => none
  | (k', v) :: rest => if k' = k then some v else lookupField rest k

/-- JavaScript `value?.key`: property access through optional chaining.
Any non-object yields `undefined`. -/
def JValue.field : JValue → String → Option JValue
  | .jobj fields, k => lookupField fields k
  | _, _ => none

/-- `toStr` of `client.ts`/`tools/index.ts` applied to a defined value:
strings pass through, numbers and booleans are `String(...)`-converted,
everything else gives the fallback (here always `""`). -/
def toStrCore : JValue → String
  | .jstr s => s
  | .jint n => toString n
  | .jnonint t => t
  | .jbool b => if b then "true" else "false"
  | .jnull => ""
  | .jarr _ => ""
  | .jobj _ => ""

/-- `toStr` applied to a possibly-`undefined` value (default fallback ""). -/
def toStr (v : Option JValue) : String :=
  match v with
  | none => ""
  | some w => toStrCore w

/-- JavaScript's whitespace set: the `\s` character class, which is also
the set removed by `String.prototype.trim`. -/
def isJsWhitespace (c : Char) : Bool :=
  let v := c.toNat
  v == 32 || v == 9 || v == 10 || v == 13 || v == 11 || v == 12 || v == 160 ||
  v == 5760 || (8192 ≤ v && v ≤ 8202) || v == 8232 || v == 8233 ||
  v == 8239 || v == 8287 || v == 12288 || v == 65279

/-- JavaScript `String.prototype.trim`. -/
def jsTrim (s : String) : String :=
  ⟨(((s.data.dropWhile isJsWhitespace).reverse).dropWhile isJsWhitespace).reverse⟩

/-! ## Configuration resolver (`config.ts`) -/

/-- The resolved plugin configuration (`JenkinsConfig` in `config.ts`). -/
structure JenkinsConfig where
  baseUrl : Option String
  account : String
  allowedParameters : List String
  timeoutMs : Int
  auditLog : Bool
deriving Repr, DecidableEq

/-- `z.string().url().optional()` on the `baseUrl` field.  The zod URL
check delegates to the host's URL parser, modelled by the `validUrl`
oracle. -/
def parseBaseUrl (validUrl : String → Bool) (fields : List (String × JValue)) :
    Except String (Option String) :=
  match lookupField fields "baseUrl" with
  | none => .ok none
  | some (.jstr s) => if validUrl s then .ok (some s) else .error "baseUrl"
  | some _ => .error "baseUrl"

/-- `z.string().default("default")` on the `account` field. -/
def parseAccount (fields : List (String × JValue)) : Except String String :=
  match lookupField fields "account" with
  | none => .ok "default"
  | some (.jstr s) => .ok s
  | some _ => .error "account"

/-- Extract a string from an array element of `allowedParameters`. -/
def asString : JValue → Except String String
  | .jstr s => .ok s
  | _ => .error "allowedParameters"

/-- Traverse the `allowedParameters` array elements. -/
def allStrings : List JValue → Except String (List String)
  | [] => .ok []
  | v :: rest =>
    match asString v, allStrings rest with
    | .ok s, .ok ss => .ok (s :: ss)
    | _, _ => .error "allowedParameters"

/-- `z.array(z.string()).default([])` on the `allowedParameters` field. -/
def parseAllowedParameters (fields : List (String × JValue)) :
    Except String (List String) :=
  match lookupField fields "allowedParameters" with
  | none => .ok []
  | some (.jarr xs) => allStrings xs
  | some _ => .error "allowedParameters"

/-- `z.number().int().positive().default(30000)` on the `timeoutMs` field. -/
def parseTimeoutMs (fields : List (String × JValue)) : Except String Int :=
  match lookupField fields "timeoutMs" with
  | none => .ok 30000
  | some (.jint n) => if 0 < n then .ok n else .error "timeoutMs"
  | some _ => .error "timeoutMs"

/-- `z.boolean().default(true)` on the `auditLog` field. -/
def parseAuditLog (fields : List (String × JValue)) : Except String Bool :=
  match lookupField fields "auditLog" with
  | none => .ok true
  | some (.jbool b) => .ok b
  | some _ => .error "auditLog"

/-- Names of the fields whose parses failed (zod aggregates all issues). -/
def errTag {α : Type} : Except String α → List String
  | .error e => [e]
  | .ok _ => []

/-- The `input` computed by `parseJenkinsConfig`: only a non-array,
non-null object keeps its fields, every other value is treated as the
empty object. -/
def configInputFields : JValue → List (String × JValue)
  | .jobj fs => fs
  | _ => []

/-- `parseJenkinsConfig` of `config.ts`: non-object or array input is
replaced by the empty object, then the zod schema is applied; the result
either carries the fully defaulted configuration or the list of offending
field names. -/
def parseJenkinsConfig (validUrl : String → Bool) (raw : JValue) :
    Except (List String) JenkinsConfig :=
  match parseBaseUrl validUrl (configInputFields raw),
    parseAccount (configInputFields raw),
    parseAllowedParameters (configInputFields raw),
    parseTimeoutMs (configInputFields raw),
    parseAuditLog (configInputFields raw) with
  | .ok b, .ok a, .ok p, .ok t, .ok l =>
    .ok { baseUrl := b, account := a, allowedParameters := p, timeoutMs := t, auditLog := l }
  | bu, ac, ap, tm, al =>
    .error (errTag bu ++ errTag ac ++ errTag ap ++ errTag tm ++ errTag al)

/-- `isParameterAllowed` of `config.ts`: an empty whitelist denies every
parameter, otherwise exact (case-sensitive) membership decides. -/
def isParameterAllowed (paramName : String) (allowedParameters : List String) : Bool :=
  if allowedParameters.length = 0 then false
  else allowedParameters.contains paramName

/-! ## Credential store (`keychain.ts`) -/

/-- The two fixed environment variables (`none` models an unset variable). -/
structure Env where
  jenkinsUser : Option String
  jenkinsToken : Option String

/-- A resolved `(principal, secret)` pair (`JenkinsCredentials`). -/
structure JenkinsCredentials where
  user : String
  token : String
deriving Repr, DecidableEq

/-- `readCredentialsFromEnv`: both variables must be set and non-empty
after trimming, otherwise `null`. -/
def readCredentialsFromEnv (env : Env) : Option JenkinsCredentials :=
  match env.jenkinsUser.map jsTrim, env.jenkinsToken.map jsTrim with
  | some u, some t => if u = "" || t = "" then none else some { user := u, token := t }
  | _, _ => none

/-- The outcome of the `security find-generic-password` subprocess for a
given account: `none` models a thrown error or unparseable JSON output
(both are swallowed by the surrounding `try`/`catch`), `some v` the parsed
JSON payload. -/
def Vault : Type := String → Option JValue

/-- `readCredentialsFromKeychain`: darwin only; the decoded payload must
carry non-empty string `user` and `token` fields. -/
def readCredentialsFromKeychain (platform account : String) (vault : Vault) :
    Option JenkinsCredentials :=
  if platform ≠ "darwin" then none
  else
    match vault account with
    | none => none
    | some data =>
      match data.field "user", data.field "token" with
      | some (.jstr u), some (.jstr t) =>
        if u = "" || t = "" then none else some { user := u, token := t }
      | _, _ => none

/-- `readJenkinsCredentials`: environment variables first, then the
platform vault. -/
def readJenkinsCredentials (env : Env) (platform account : String) (vault : Vault) :
    Option JenkinsCredentials :=
  match readCredentialsFromEnv env with
  | some c => some c
  | none => readCredentialsFromKeychain platform account vault

deriving instance DecidableEq for Except

/-! ## Remote client (`client.ts`): job-path normalization -/

/-- Characters left unescaped by JavaScript's `encodeURIComponent`
(`A-Z a-z 0-9 - _ . ! ~ * ' ( )`), identified by code point. -/
def isUriUnreserved (c : Char) : Bool :=
  let v := c.toNat
  (65 ≤ v && v ≤ 90) || (97 ≤ v && v ≤ 122) || (48 ≤ v && v ≤ 57) ||
  v == 45 || v == 95 || v == 46 || v == 33 || v == 126 || v == 42 ||
  v == 39 || v == 40 || v == 41

/-- Upper-case hexadecimal digit for `n < 16`. -/
def hexDigit (n : Nat) : Char :=
  if n < 10 then Char.ofNat (48 + n) else Char.ofNat (55 + n)

/-- UTF-8 encoding of one scalar value, as a byte list. -/
def utf8EncodeChar (c : Char) : List Nat :=
  if c.toNat < 128 then [c.toNat]
  else if c.toNat < 2048 then [192 + c.toNat / 64, 128 + c.toNat % 64]
  else if c.toNat < 65536 then
    [224 + c.toNat / 4096, 128 + c.toNat / 64 % 64, 128 + c.toNat % 64]
  else
    [240 + c.toNat / 262144, 128 + c.toNat / 4096 % 64, 128 + c.toNat / 64 % 64,
     128 + c.toNat % 64]

/-- `%XX` escape of one byte. -/
def percentByte (b : Nat) : List Char :=
  ['%', hexDigit (b / 16), hexDigit (b % 16)]

/-- `%XX` escapes of a byte list. -/
def percentChain (bs : List Nat) : List Char :=
  bs.foldr (fun b acc => percentByte b ++ acc) []

/-- `encodeURIComponent` on one character. -/
def encodeChar (c : Char) : List Char :=
  if isUriUnreserved c then [c]
  else percentChain (utf8EncodeChar c)

/-- `encodeURIComponent` on a character list. -/
def encodeList : List Char → List Char
  | [] => []
  | c :: rest => encodeChar c ++ encodeList rest

/-- JavaScript `encodeURIComponent`. -/
def encodeURIComponent (s : String) : String :=
  ⟨encodeList s.data⟩

/-- `parts.map((p) => "/job/" + encodeURIComponent(p)).join("")` of
`normalizeJobPath`, on the filtered segment list. -/
def normalizeSegments : List String → String
  | [] => ""
  | p :: rest => "/job/" ++ encodeURIComponent p ++ normalizeSegments rest

/-- JavaScript `str.split("/")` on a character list: `"a//b"` splits into
`["a", "", "b"]` and the empty string into `[""]`. -/
def splitOnSlash : List Char → List (List Char)
  | [] => [[]]
  | c :: rest =>
    if c = '/' then [] :: splitOnSlash rest
    else
      match splitOnSlash rest with
      | s :: ss => (c :: s) :: ss
      | [] => [[c]]

/-- `normalizeJobPath` of `client.ts`: split on `/`, drop empty segments,
percent-encode each segment and wrap it in a `/job/` segment of the URL. -/
def normalizeJobPath (jobPath : String) : String :=
  normalizeSegments (((splitOnSlash jobPath.data).filter (· ≠ [])).map (fun cs => (⟨cs⟩ : String)))

/-! ## Remote client: `updateParameter` and its regex check -/

/-- Consume an exact literal from the front of a character list, returning
the remainder on success. -/
def dropLit : List Char → List Char → Option (List Char)
  | [], cs => some cs
  | _ :: _, [] => none
  | p :: ps, c :: cs => if c = p then dropLit ps cs else none

/-- Remainder after the first occurrence of a literal (the `.*?lit` step of
the dot-all regex). -/
def afterLit (pat : List Char) : List Char → Option (List Char)
  | [] => dropLit pat []
  | c :: rest =>
    match dropLit pat (c :: rest) with
    | some r => some r
    | none => afterLit pat rest

/-- Does the `updateParameter` regex match at this position?  The pattern is
`<hudson.model.StringParameterDefinition>` then `\s*` then
`<name>NAME</name>` (NAME literal, being regex-escaped) then `.*?` then
`<defaultValue>` then `.*?` then `</defaultValue>`, in dot-all mode.
`\s*` is forced to the maximal whitespace run because the following `<` is
not whitespace. -/
def blockMatchAt (name : List Char) (cs : List Char) : Bool :=
  match dropLit "<hudson.model.StringParameterDefinition>".data cs with
  | none => false
  | some rest =>
    match dropLit ("<name>".data ++ name ++ "</name>".data) (rest.dropWhile isJsWhitespace) with
    | none => false
    | some rest2 =>
      match afterLit "<defaultValue>".data rest2 with
      | none => false
      | some rest3 => (afterLit "</defaultValue>".data rest3).isSome

/-- Does a predicate hold on some suffix of the list? -/
def anySuffix (p : List Char → Bool) : List Char → Bool
  | [] => p []
  | c :: rest => p (c :: rest) || anySuffix p rest

/-- `paramPattern.test(configXml)` of `updateParameter`: the regex matches
at some position of the document. -/
def hasParamBlock (xml paramName : String) : Bool :=
  anySuffix (blockMatchAt paramName.data) xml.data

/-- Outcome of the initial `config.xml` GET: a body, an HTTP error status,
or a network failure. -/
inductive FetchOutcome where
  | ok (body : String)
  | httpError (status : Nat)
  | netError (msg : String)
deriving Repr, DecidableEq

/-- Observable trace of one `updateParameter` call: its result and how many
GET (fetch) and POST (write) requests were issued.  The body written on the
success path (the textual patch of the matched `<defaultValue>` element) is
not tracked; the claims verified here concern only requests and results. -/
structure UpdateTrace where
  result : Except String Bool
  fetchCount : Nat
  writeCount : Nat
deriving Repr, DecidableEq

/-- `JenkinsClient.updateParameter`: fetch `config.xml`, test the regex,
and only then POST the patched document.  `writeOutcome` is the outcome of
the POST when it happens (`none` = 2xx, `some s` = HTTP error status
`s`). -/
def updateParameter (fetchOutcome : FetchOutcome) (writeOutcome : Option Nat)
    (paramName newValue : String) : UpdateTrace :=
  match fetchOutcome with
  | .netError msg => { result := .error msg, fetchCount := 1, writeCount := 0 }
  | .httpError status =>
    { result := .error ("Failed to fetch job config: " ++ toString status),
      fetchCount := 1, writeCount := 0 }
  | .ok configXml =>
    if hasParamBlock configXml paramName then
      match writeOutcome with
      | none => { result := .ok true, fetchCount := 1, writeCount := 1 }
      | some status =>
        { result := .error ("Failed to update job config: " ++ toString status),
          fetchCount := 1, writeCount := 1 }
    else
      { result := .error ("Parameter \"" ++ paramName ++ "\" not found in job config"),
        fetchCount := 1, writeCount := 0 }

/-! ## Remote client: parameter extraction (`extractParameters`) -/

/-- A parameter definition DTO (`JenkinsParameter`). -/
structure JenkinsParameter where
  name : String
  type : String
  description : Option String
  defaultValue : Option String
  choices : Option (List String)
deriving Repr, DecidableEq

/-- Suffix after the last `.` of a line, when the line contains one. -/
def afterLastDot (line : List Char) : Option (List Char) :=
  match line with
  | [] => none
  | c :: rest =>
    match afterLastDot rest with
    | some suf => some suf
    | none => if c = '.' then some rest else none

/-- Split a character list at newlines (lines keep no terminator). -/
def splitNl : List Char → List (List Char)
  | [] => [[]]
  | c :: rest =>
    if c = '\n' then [] :: splitNl rest
    else
      match splitNl rest with
      | s :: ss => (c :: s) :: ss
      | [] => [[c]]

/-- Rejoin lines with newlines (inverse of `splitNl`). -/
def joinNl : List (List Char) → List Char
  | [] => []
  | [line] => line
  | line :: rest => line ++ '\n' :: joinNl rest

/-- In the first line containing a `.`, drop everything up to and including
its last `.`; later lines are untouched. -/
def stripFirstDotLine : List (List Char) → List (List Char)
  | [] => []
  | line :: rest =>
    match afterLastDot line with
    | some suf => suf :: rest
    | none => line :: stripFirstDotLine rest

/-- `str.replace(/.*\./, "")`: `.` does not cross newlines and `.*` is
greedy, so the first (and only) replacement removes, from the first line
that contains a dot, everything up to and including its last dot. -/
def replaceDotLead (cs : List Char) : List Char :=
  joinNl (stripFirstDotLine (splitNl cs))

/-- `toStr(d.type).replace(/.*\./, "")` as a string function. -/
def stripTypeNamespace (s : String) : String :=
  ⟨replaceDotLead s.data⟩

/-- One entry of the `parameterDefinitions` loop of `extractParameters`.
The guard is `!def || typeof def !== "object"`: `null`, booleans, numbers
and strings are skipped (`none`), but both plain objects and arrays pass
(in JavaScript `typeof [] === "object"` and an array is truthy); an array
has none of the looked-up properties, so it contributes a degenerate
`{name: "", type: "", ...}` entry. -/
def paramOfDef (d : JValue) : Option JenkinsParameter :=
  match d with
  | .jobj _ | .jarr _ =>
    some {
      name := toStr (d.field "name"),
      type := stripTypeNamespace (toStr (d.field "type")),
      description := match d.field "description" with
        | some (.jstr s) => some s
        | _ => none,
      defaultValue := match d.field "defaultParameterValue" with
        | some dv =>
          match dv.field "value" with
          | some v => some (toStrCore v)
          | none => none
        | none => none,
      choices := match d.field "choices" with
        | some (.jarr cs) => some (cs.map toStrCore)
        | _ => none }
  | _ => none

/-- The definitions contributed by one `property[]` entry: an object with a
`parameterDefinitions` array contributes its (object) elements, everything
else contributes nothing. -/
def defsOfProperty (prop : JValue) : List JenkinsParameter :=
  match prop with
  | .jobj fs =>
    match lookupField fs "parameterDefinitions" with
    | some (.jarr defs) => defs.filterMap paramOfDef
    | _ => []
  | _ => []

/-- `JenkinsClient.extractParameters`: walk every `property[]` entry,
accumulating the parameter definitions of each of its
`parameterDefinitions` lists; `undefined` when nothing was collected. -/
def extractParameters (data : List (String × JValue)) : Option (List JenkinsParameter) :=
  match lookupField data "property" with
  | some (.jarr props) =>
    let params := props.foldr (fun prop acc => defsOfProperty prop ++ acc) []
    if params = [] then none else some params
  | _ => none

/-! ## Remote client: `testConnection` -/

/-- Result type of `testConnection`. -/
structure ConnResult where
  ok : Bool
  version : Option String
  error : Option String
deriving Repr, DecidableEq

/-- `JenkinsClient.testConnection`: try the authenticated `/me/api/json`
request; on failure fall back to `/api/json?tree=nodeDescription`; if that
also fails, report the fallback attempt's error message.  The identity
text uses `fullName` under a truthiness check, so a missing, non-string or
EMPTY `fullName` all yield plain `"Authenticated"`.  The two request
outcomes are passed in as oracles (`.error msg` models a thrown error with
message `msg`). -/
def testConnection (meOutcome basicOutcome : Except String (List (String × JValue))) :
    ConnResult :=
  match meOutcome with
  | .ok meData =>
    match lookupField meData "fullName" with
    | some (.jstr fullName) =>
      if fullName = "" then { ok := true, version := some "Authenticated", error := none }
      else { ok := true, version := some ("Authenticated as " ++ fullName), error := none }
    | _ => { ok := true, version := some "Authenticated", error := none }
  | .error _ =>
    match basicOutcome with
    | .ok data =>
      match lookupField data "nodeDescription" with
      | some (.jstr desc) => { ok := true, version := some desc, error := none }
      | _ => { ok := true, version := none, error := none }
    | .error e2 => { ok := false, version := none, error := some e2 }

/-! ## Authorized action surface (`tools/index.ts`) -/

/-- One audit record: the logged line carries the tool name and the
JSON-serialized input parameters; we keep the pair in structured form. -/
structure AuditEntry where
  tool : String
  params : JValue
deriving Repr, BEq

/-- `auditLog` of `tools/index.ts`: one record when auditing is enabled,
nothing otherwise. -/
def auditEntries (auditEnabled : Bool) (tool : String) (params : JValue) : List AuditEntry :=
  if auditEnabled then [{ tool := tool, params := params }] else []

/-- Observable trace of one tool `execute` call: thrown error or success,
the audit records emitted, and whether the remote client was invoked. -/
structure ToolTrace where
  result : Except String Unit
  audit : List AuditEntry
  clientCalled : Bool
deriving Repr, BEq

/-- `allowed.join(", ") || "(none)"` of the denial message. -/
def allowedListMsg (allowed : List String) : String :=
  let joined := String.intercalate ", " allowed
  if joined = "" then "(none)" else joined

/-- The authorization error thrown by the two mutating tools. -/
def authzErrorMsg (paramName : String) (allowed : List String) : String :=
  "Parameter \"" ++ paramName ++ "\" is not in the allowed parameters whitelist. " ++
    "Allowed: " ++ allowedListMsg allowed

/-- First parameter name rejected by the whitelist, scanning in record
order (the `for ... of Object.keys` loop throws at the first offender). -/
def firstDisallowed (keys allowed : List String) : Option String :=
  keys.find? (fun k => !isParameterAllowed k allowed)

/-- The object logged by `jenkins_trigger_build`
(`{ job, parameters: buildParams }`; an absent record is dropped by
`JSON.stringify`). -/
def triggerAuditParams (job : String) (buildParams : Option (List (String × String))) :
    JValue :=
  .jobj ([("job", .jstr job)] ++
    match buildParams with
    | some ps => [("parameters", .jobj (ps.map (fun kv => (kv.1, .jstr kv.2))))]
    | none => [])

/-- `createTriggerBuildTool(...).execute`: coerce and check `job`, check
every supplied parameter name against the whitelist, audit, then call
`client.triggerBuild` (whose outcome is the `clientOutcome` oracle). -/
def triggerBuildExecute (cfg : JenkinsConfig) (clientOutcome : Except String Unit)
    (jobRaw : Option JValue) (buildParams : Option (List (String × String))) : ToolTrace :=
  let job := jsTrim (toStr jobRaw)
  if job = "" then
    { result := .error "job parameter is required", audit := [], clientCalled := false }
  else
    match
      match buildParams with
      | some ps => firstDisallowed (ps.map Prod.fst) cfg.allowedParameters
      | none => none
    with
    | some bad =>
      { result := .error (authzErrorMsg bad cfg.allowedParameters),
        audit := [], clientCalled := false }
    | none =>
      { result := clientOutcome,
        audit := auditEntries cfg.auditLog "jenkins_trigger_build"
          (triggerAuditParams job buildParams),
        clientCalled := true }

/-- `createUpdateParameterTool(...).execute`: coerce and check `job` and
`parameter`, check the whitelist, audit, then call
`client.updateParameter`. -/
def updateParameterExecute (cfg : JenkinsConfig) (clientOutcome : Except String Unit)
    (jobRaw paramRaw valueRaw : Option JValue) : ToolTrace :=
  let job := jsTrim (toStr jobRaw)
  if job = "" then
    { result := .error "job parameter is required", audit := [], clientCalled := false }
  else
    let paramName := jsTrim (toStr paramRaw)
    if paramName = "" then
      { result := .error "parameter name is required", audit := [], clientCalled := false }
    else
      let value := toStr valueRaw
      if !isParameterAllowed paramName cfg.allowedParameters then
        { result := .error (authzErrorMsg paramName cfg.allowedParameters),
          audit := [], clientCalled := false }
      else
        { result := clientOutcome,
          audit := auditEntries cfg.auditLog "jenkins_update_parameter"
            (.jobj [("job", .jstr job), ("parameter", .jstr paramName),
                    ("value", .jstr value)]),
          clientCalled := true }

/-- `createListJobsTool(...).execute`: no required input; audit, then call
`client.listJobs`. -/
def listJobsExecute (cfg : JenkinsConfig) (clientOutcome : Except String Unit)
    (folderRaw : Option JValue) : ToolTrace :=
  let folder : Option String :=
    match folderRaw with
    | some (.jstr s) => some (jsTrim s)
    | _ => none
  { result := clientOutcome,
    audit := auditEntries cfg.auditLog "jenkins_list_jobs"
      (.jobj [("folder", .jstr (match folder with | some f => f | none => "(root)"))]),
    clientCalled := true }

/-- `createGetJobInfoTool(...).execute`: require `job`, audit, call
`client.getJobInfo`. -/
def getJobInfoExecute (cfg : JenkinsConfig) (clientOutcome : Except String Unit)
    (jobRaw : Option JValue) : ToolTrace :=
  let job := jsTrim (toStr jobRaw)
  if job = "" then
    { result := .error "job parameter is required", audit := [], clientCalled := false }
  else
    { result := clientOutcome,
      audit := auditEntries cfg.auditLog "jenkins_get_job_info" (.jobj [("job", .jstr job)]),
      clientCalled := true }

/-- `createListBuildsTool(...).execute`: require `job`, default `limit` to
10, audit, call `client.listBuilds`. -/
def listBuildsExecute (cfg : JenkinsConfig) (clientOutcome : Except String Unit)
    (jobRaw limitRaw : Option JValue) : ToolTrace :=
  let job := jsTrim (toStr jobRaw)
  if job = "" then
    { result := .error "job parameter is required", audit := [], clientCalled := false }
  else
    let limit : JValue :=
      match limitRaw with
      | some (.jint n) => .jint n
      | some (.jnonint t) => .jnonint t
      | _ => .jint 10
    { result := clientOutcome,
      audit := auditEntries cfg.auditLog "jenkins_list_builds"
        (.jobj [("job", .jstr job), ("limit", limit)]),
      clientCalled := true }

/-- `createGetBuildInfoTool(...).execute`: require `job` and a numeric
`build`, audit, call `client.getBuildInfo`. -/
def getBuildInfoExecute (cfg : JenkinsConfig) (clientOutcome : Except String Unit)
    (jobRaw buildRaw : Option JValue) : ToolTrace :=
  let job := jsTrim (toStr jobRaw)
  if job = "" then
    { result := .error "job parameter is required", audit := [], clientCalled := false }
  else
    match buildRaw with
    | some (.jint n) =>
      { result := clientOutcome,
        audit := auditEntries cfg.auditLog "jenkins_get_build_info"
          (.jobj [("job", .jstr job), ("build", .jint n)]),
        clientCalled := true }
    | some (.jnonint t) =>
      { result := clientOutcome,
        audit := auditEntries cfg.auditLog "jenkins_get_build_info"
          (.jobj [("job", .jstr job), ("build", .jnonint t)]),
        clientCalled := true }
    | _ =>
      { result := .error "build parameter is required", audit := [], clientCalled := false }

/-! ## Spec-side characterizations used by the claim statements -/

/-- Well-formedness of every supplied configuration field: `baseUrl` a
string accepted by the URL check, `account` a string,
`allowedParameters` an array of strings, `timeoutMs` a positive integral
number, `auditLog` a boolean; absent fields are unconstrained. -/
def SuppliedFieldsValid (validUrl : String → Bool) (fields : List (String × JValue)) : Prop :=
  (∀ v, lookupField fields "baseUrl" = some v → ∃ s, v = .jstr s ∧ validUrl s = true) ∧
  (∀ v, lookupField fields "account" = some v → ∃ s, v = .jstr s) ∧
  (∀ v, lookupField fields "allowedParameters" = some v →
    ∃ xs, v = .jarr xs ∧ ∀ x ∈ xs, ∃ s, x = .jstr s) ∧
  (∀ v, lookupField fields "timeoutMs" = some v → ∃ n : Int, v = .jint n ∧ 0 < n) ∧
  (∀ v, lookupField fields "auditLog" = some v → ∃ b, v = .jbool b)

/-- A well-formed job path as a segment sequence: every segment is
non-empty and contains no `/`. -/
def WellFormedSegs (segs : List String) : Prop :=
  ∀ s ∈ segs, s ≠ "" ∧ ∀ ch ∈ s.data, ch ≠ '/'

instance : DecidablePred WellFormedSegs := fun segs =>
  inferInstanceAs (Decidable (∀ s ∈ segs, s ≠ "" ∧ ∀ ch ∈ s.data, ch ≠ '/'))

/-- Audit discipline of one tool invocation: records appear only when
auditing is enabled, exactly one record is emitted iff the call reached
the client dispatch, every record names the tool, and invocations that
fail validation or the whitelist check (never reaching the client) emit
none. -/
def AuditDisciplined (toolName : String) (auditEnabled : Bool) (tr : ToolTrace) : Prop :=
  (auditEnabled = false → tr.audit = []) ∧
  tr.audit.length = (if auditEnabled && tr.clientCalled then 1 else 0) ∧
  (∀ e ∈ tr.audit, e.tool = toolName) ∧
  (tr.clientCalled = false → tr.audit = [])

/-! ## Helper lemmas -/

theorem auditDisciplined_denied (toolName : String) (auditEnabled : Bool)
    (r : Except String Unit) :
    AuditDisciplined toolName auditEnabled
      { result := r, audit := [], clientCalled := false } := by
  refine ⟨fun _ => rfl, ?_, by simp, fun _ => rfl⟩
  simp

theorem auditDisciplined_dispatch (toolName : String) (auditEnabled : Bool)
    (params : JValue) (r : Except String Unit) :
    AuditDisciplined toolName auditEnabled
      { result := r, audit := auditEntries auditEnabled toolName params,
        clientCalled := true } := by
  cases auditEnabled with
  | false => exact ⟨fun _ => rfl, by simp [auditEntries], by simp [auditEntries], by simp⟩
  | true =>
    refine ⟨by simp, by simp [auditEntries], ?_, by simp⟩
    intro e he
    simp [auditEntries] at he
    rw [he]

theorem parseBaseUrl_ok_iff (validUrl : String → Bool) (fields : List (String × JValue)) :
    (∃ r, parseBaseUrl validUrl fields = .ok r) ↔
    (∀ v, lookupField fields "baseUrl" = some v → ∃ s, v = .jstr s ∧ validUrl s = true) := by
  unfold parseBaseUrl
  cases h : lookupField fields "baseUrl" with
  | none => simp
  | some v =>
    cases v <;> simp
    rename_i s
    by_cases hv : validUrl s = true <;> simp [hv]

theorem parseAccount_ok_iff (fields : List (String × JValue)) :
    (∃ r, parseAccount fields = .ok r) ↔
    (∀ v, lookupField fields "account" = some v → ∃ s, v = .jstr s) := by
  unfold parseAccount
  cases h : lookupField fields "account" with
  | none => simp
  | some v => cases v <;> simp

theorem allStrings_ok_iff (xs : List JValue) :
    (∃ r, allStrings xs = .ok r) ↔ (∀ x ∈ xs, ∃ s, x = .jstr s) := by
  induction xs with
  | nil => simp [allStrings]
  | cons x rest ih =>
    constructor
    · rintro ⟨r, hr⟩
      unfold allStrings at hr
      cases hx : asString x with
      | error e => rw [hx] at hr; cases allStrings rest <;> simp at hr
      | ok s =>
        rw [hx] at hr
        cases hrest : allStrings rest with
        | error e => rw [hrest] at hr; simp at hr
        | ok ss =>
          intro y hy
          rcases List.mem_cons.mp hy with rfl | hmem
          · cases y <;> first | exact ⟨_, rfl⟩ | simp [asString] at hx
          · exact ih.mp ⟨ss, hrest⟩ y hmem
    · intro hall
      obtain ⟨s, hs⟩ := hall x (List.mem_cons_self _ _)
      obtain ⟨ss, hss⟩ := ih.mpr (fun y hy => hall y (List.mem_cons_of_mem _ hy))
      subst hs
      exact ⟨s :: ss, by simp [allStrings, asString, hss]⟩

theorem parseAllowedParameters_ok_iff (fields : List (String × JValue)) :
    (∃ r, parseAllowedParameters fields = .ok r) ↔
    (∀ v, lookupField fields "allowedParameters" = some v →
      ∃ xs, v = .jarr xs ∧ ∀ x ∈ xs, ∃ s, x = .jstr s) := by
  unfold parseAllowedParameters
  cases h : lookupField fields "allowedParameters" with
  | none => simp
  | some v =>
    cases v <;> simp
    rename_i xs
    exact allStrings_ok_iff xs

theorem parseTimeoutMs_ok_iff (fields : List (String × JValue)) :
    (∃ r, parseTimeoutMs fields = .ok r) ↔
    (∀ v, lookupField fields "timeoutMs" = some v → ∃ n : Int, v = .jint n ∧ 0 < n) := by
  unfold parseTimeoutMs
  cases h : lookupField fields "timeoutMs" with
  | none => simp
  | some v =>
    cases v <;> simp
    rename_i n
    by_cases hn : 0 < n <;> simp [hn]

theorem parseAuditLog_ok_iff (fields : List (String × JValue)) :
    (∃ r, parseAuditLog fields = .ok r) ↔
    (∀ v, lookupField fields "auditLog" = some v → ∃ b, v = .jbool b) := by
  unfold parseAuditLog
  cases h : lookupField fields "auditLog" with
  | none => simp
  | some v => cases v <;> simp

theorem parseJenkinsConfig_ok_iff (validUrl : String → Bool) (raw : JValue) :
    (∃ cfg, parseJenkinsConfig validUrl raw = .ok cfg) ↔
    ((∃ r, parseBaseUrl validUrl (configInputFields raw) = .ok r) ∧
     (∃ r, parseAccount (configInputFields raw) = .ok r) ∧
     (∃ r, parseAllowedParameters (configInputFields raw) = .ok r) ∧
     (∃ r, parseTimeoutMs (configInputFields raw) = .ok r) ∧
     (∃ r, parseAuditLog (configInputFields raw) = .ok r)) := by
  unfold parseJenkinsConfig
  cases hbu : parseBaseUrl validUrl (configInputFields raw) <;>
    cases hac : parseAccount (configInputFields raw) <;>
    cases hap : parseAllowedParameters (configInputFields raw) <;>
    cases htm : parseTimeoutMs (configInputFields raw) <;>
    cases hal : parseAuditLog (configInputFields raw) <;>
    simp

/-- The whitelist check refuses exactly the names outside the list (an
empty list refuses everything). -/
theorem isParameterAllowed_eq_false_iff (n : String) (w : List String) :
    isParameterAllowed n w = false ↔ n ∉ w := by
  unfold isParameterAllowed
  cases w with
  | nil => simp
  | cons x xs => simp

theorem env_credentials_nonempty (env : Env) (c : JenkinsCredentials)
    (h : readCredentialsFromEnv env = some c) : c.user ≠ "" ∧ c.token ≠ "" := by
  unfold readCredentialsFromEnv at h
  cases hu : env.jenkinsUser.map jsTrim with
  | none => rw [hu] at h; cases h
  | some u =>
    cases ht : env.jenkinsToken.map jsTrim with
    | none => rw [hu, ht] at h; cases h
    | some t =>
      rw [hu, ht] at h
      by_cases hu0 : u = "" <;> by_cases ht0 : t = "" <;> simp [hu0, ht0] at h
      exact ⟨by rw [← h]; exact hu0, by rw [← h]; exact ht0⟩

theorem keychain_credentials_nonempty (platform account : String) (vault : Vault)
    (c : JenkinsCredentials)
    (h : readCredentialsFromKeychain platform account vault = some c) :
    c.user ≠ "" ∧ c.token ≠ "" := by
  unfold readCredentialsFromKeychain at h
  split at h
  · cases h
  · split at h
    · cases h
    · split at h
      · split at h
        · cases h
        · rename_i hcond
          cases h
          simp only [Bool.or_eq_true, decide_eq_true_eq, not_or] at hcond
          exact hcond
      · cases h

/-! ## Claim theorems -/

/-- Claim C1: with an empty whitelist, `isParameterAllowed` refuses every
name, and both mutating tools fail with the authorization error without
calling the remote client — `jenkins_trigger_build` for a parameters record
containing any name `n`, `jenkins_update_parameter` for parameter `n`. -/
theorem c1_empty_whitelist_denies
    (n : String) (cfg : JenkinsConfig) (clientOutcome : Except String Unit)
    (jobRaw paramRaw valueRaw : Option JValue) (ps : List (String × String))
    (hwl : cfg.allowedParameters = [])
    (hjob : jsTrim (toStr jobRaw) ≠ "")
    (hmem : n ∈ ps.map Prod.fst)
    (hpn : jsTrim (toStr paramRaw) = n) (hne : n ≠ "") :
    isParameterAllowed n [] = false ∧
    (∃ m ∈ ps.map Prod.fst,
      triggerBuildExecute cfg clientOutcome jobRaw (some ps) =
        { result := .error (authzErrorMsg m []), audit := [], clientCalled := false }) ∧
    updateParameterExecute cfg clientOutcome jobRaw paramRaw valueRaw =
      { result := .error (authzErrorMsg n []), audit := [], clientCalled := false } := by
  obtain ⟨k, ks, hcons⟩ : ∃ k ks, ps.map Prod.fst = k :: ks := by
    cases hps : ps.map Prod.fst with
    | nil => rw [hps] at hmem; cases hmem
    | cons k ks => exact ⟨k, ks, rfl⟩
  refine ⟨rfl, ⟨k, by rw [hcons]; exact List.mem_cons_self k ks, ?_⟩, ?_⟩
  · have hfd : firstDisallowed (k :: ks) [] = some k := by
      simp [firstDisallowed, List.find?, isParameterAllowed]
    simp [triggerBuildExecute, hjob, hcons, hwl, hfd]
  · simp [updateParameterExecute, hjob, hpn, hne, hwl,
      show isParameterAllowed n [] = false from rfl]

/-- Claim C2: any parameter name outside the whitelist makes the whole
mutating call fail with an error naming an offending parameter and listing
the permitted set (`"(none)"` when empty), and the remote client is never
invoked; both `jenkins_trigger_build` and `jenkins_update_parameter` are
guarded this way. -/
theorem c2_whitelist_blocks_disallowed
    (cfg : JenkinsConfig) (clientOutcome : Except String Unit)
    (jobRaw paramRaw valueRaw : Option JValue) (ps : List (String × String)) (n : String)
    (hjob : jsTrim (toStr jobRaw) ≠ "")
    (hmem : n ∈ ps.map Prod.fst) (hn : n ∉ cfg.allowedParameters)
    (hpn : jsTrim (toStr paramRaw) ≠ "")
    (hpw : jsTrim (toStr paramRaw) ∉ cfg.allowedParameters) :
    (∃ m ∈ ps.map Prod.fst, m ∉ cfg.allowedParameters ∧
      triggerBuildExecute cfg clientOutcome jobRaw (some ps) =
        { result := .error (authzErrorMsg m cfg.allowedParameters),
          audit := [], clientCalled := false }) ∧
    updateParameterExecute cfg clientOutcome jobRaw paramRaw valueRaw =
      { result := .error (authzErrorMsg (jsTrim (toStr paramRaw)) cfg.allowedParameters),
        audit := [], clientCalled := false } ∧
    (cfg.allowedParameters = [] → allowedListMsg cfg.allowedParameters = "(none)") := by
  have hsome : (firstDisallowed (ps.map Prod.fst) cfg.allowedParameters).isSome := by
    rw [firstDisallowed, List.find?_isSome]
    exact ⟨n, hmem, by simp [(isParameterAllowed_eq_false_iff n _).mpr hn]⟩
  obtain ⟨m, hm⟩ := Option.isSome_iff_exists.mp hsome
  have hmmem : m ∈ ps.map Prod.fst := List.mem_of_find?_eq_some hm
  have hmprop : isParameterAllowed m cfg.allowedParameters = false := by
    have := List.find?_some hm
    simpa using this
  refine ⟨⟨m, hmmem, (isParameterAllowed_eq_false_iff m _).mp hmprop, ?_⟩, ?_, ?_⟩
  · simp [triggerBuildExecute, hjob, hm]
  · simp [updateParameterExecute, hjob, hpn,
      (isParameterAllowed_eq_false_iff _ _).mpr hpw]
  · intro hnil
    rw [hnil]
    rfl

/-- Claim C4: when both environment variables are set and non-empty after
trimming, the credential read returns exactly the trimmed environment
values for every vault behavior, so its result is independent of vault
contents. -/
theorem c4_env_precedence
    (env : Env) (platform account : String) (vault vault2 : Vault) (u t : String)
    (hu : env.jenkinsUser = some u) (ht : env.jenkinsToken = some t)
    (hu' : jsTrim u ≠ "") (ht' : jsTrim t ≠ "") :
    readJenkinsCredentials env platform account vault =
      some { user := jsTrim u, token := jsTrim t } ∧
    readJenkinsCredentials env platform account vault =
      readJenkinsCredentials env platform account vault2 := by
  have henv : readCredentialsFromEnv env = some { user := jsTrim u, token := jsTrim t } := by
    simp [readCredentialsFromEnv, hu, ht, hu', ht']
  constructor
  · simp [readJenkinsCredentials, henv]
  · simp [readJenkinsCredentials, henv]

/-- Claim C5: when the regex of `updateParameter` finds no matching
`StringParameterDefinition` block for the parameter, the call fails with
the not-found error after exactly one fetch and zero writes. -/
theorem c5_update_not_found_no_write
    (xml p v : String) (writeOutcome : Option Nat)
    (h : hasParamBlock xml p = false) :
    updateParameter (.ok xml) writeOutcome p v =
      { result := .error ("Parameter \"" ++ p ++ "\" not found in job config"),
        fetchCount := 1, writeCount := 0 } := by
  simp [updateParameter, h]

/-- Claim C10: a non-absent result of the credential read always carries a
non-empty principal and a non-empty secret, on every account, platform and
vault behavior. -/
theorem c10_no_empty_credentials
    (env : Env) (platform account : String) (vault : Vault) (c : JenkinsCredentials)
    (h : readJenkinsCredentials env platform account vault = some c) :
    c.user ≠ "" ∧ c.token ≠ "" := by
  unfold readJenkinsCredentials at h
  cases he : readCredentialsFromEnv env with
  | some c' =>
    rw [he] at h
    cases h
    exact env_credentials_nonempty env c he
  | none =>
    rw [he] at h
    exact keychain_credentials_nonempty platform account vault c h

theorem c1_witness :
    updateParameterExecute
        { baseUrl := none, account := "default", allowedParameters := [],
          timeoutMs := 30000, auditLog := true }
        (.ok ()) (some (.jstr "job1")) (some (.jstr "FOO")) (some (.jstr "v")) =
      { result := .error (authzErrorMsg "FOO" []), audit := [], clientCalled := false } :=
  (c1_empty_whitelist_denies "FOO"
    { baseUrl := none, account := "default", allowedParameters := [],
      timeoutMs := 30000, auditLog := true }
    (.ok ()) (some (.jstr "job1")) (some (.jstr "FOO")) (some (.jstr "v")) [("FOO", "x")]
    rfl (by decide) (by decide) (by decide) (by decide)).2.2

theorem c2_witness :
    updateParameterExecute
        { baseUrl := none, account := "default", allowedParameters := ["APP_VERSION"],
          timeoutMs := 30000, auditLog := true }
        (.ok ()) (some (.jstr "proj")) (some (.jstr "SECRET")) (some (.jstr "x")) =
      { result := .error (authzErrorMsg "SECRET" ["APP_VERSION"]),
        audit := [], clientCalled := false } := by
  have h := (c2_whitelist_blocks_disallowed
    { baseUrl := none, account := "default", allowedParameters := ["APP_VERSION"],
      timeoutMs := 30000, auditLog := true }
    (.ok ()) (some (.jstr "proj")) (some (.jstr "SECRET")) (some (.jstr "x"))
    [("APP_VERSION", "1.0.0"), ("SECRET", "x")] "SECRET"
    (by decide) (by decide) (by decide) (by decide) (by decide)).2.1
  simpa using h

theorem c4_witness :
    readJenkinsCredentials { jenkinsUser := some " admin ", jenkinsToken := some " tok " }
        "darwin" "default"
        (fun _ => some (.jobj [("user", .jstr "other"), ("token", .jstr "x")])) =
      some { user := "admin", token := "tok" } := by
  have h := (c4_env_precedence
    { jenkinsUser := some " admin ", jenkinsToken := some " tok " } "darwin" "default"
    (fun _ => some (.jobj [("user", .jstr "other"), ("token", .jstr "x")]))
    (fun _ => none) " admin " " tok " rfl rfl (by decide) (by decide)).1
  rw [show jsTrim " admin " = "admin" from by decide,
    show jsTrim " tok " = "tok" from by decide] at h
  exact h

theorem c5_witness :
    updateParameter (.ok "<project></project>") none "MISSING" "v" =
      { result := .error ("Parameter \"MISSING\" not found in job config"),
        fetchCount := 1, writeCount := 0 } := by
  have h := c5_update_not_found_no_write "<project></project>" "MISSING" "v" none (by decide)
  simpa using h

/-- Claim C3 (counterexample): the resolver also fails on malformed
fields other than the server URL — here `timeoutMs: 0` with no `baseUrl`
supplied at all — refuting "it fails only when an explicitly supplied
server URL is present but not a syntactically valid absolute URL". -/
theorem c3_counterexample :
    parseJenkinsConfig (fun _ => true) (.jobj [("timeoutMs", .jint 0)]) =
      .error ["timeoutMs"] ∧
    lookupField (configInputFields (.jobj [("timeoutMs", .jint 0)])) "baseUrl" = none :=
  ⟨rfl, rfl⟩

/-- Claim C3 (amended): the resolver treats non-object or array input as
the empty object and then yields a configuration with all five fields
populated (defaults `account="default"`, `allowedParameters=[]`,
`timeoutMs=30000`, `auditLog=true` for absent fields); it fails exactly
when some explicitly supplied field is malformed: a `baseUrl` that is not
a string accepted by the URL parser, an `account` that is not a string, an
`allowedParameters` that is not an array of strings, a `timeoutMs` that is
not a positive integral number, or an `auditLog` that is not a boolean. -/
theorem c3_resolver_amended (validUrl : String → Bool) (raw : JValue) :
    (configInputFields raw = [] →
      parseJenkinsConfig validUrl raw =
        .ok { baseUrl := none, account := "default", allowedParameters := [],
              timeoutMs := 30000, auditLog := true }) ∧
    ((∃ cfg, parseJenkinsConfig validUrl raw = .ok cfg) ↔
      SuppliedFieldsValid validUrl (configInputFields raw)) ∧
    (∀ cfg, parseJenkinsConfig validUrl raw = .ok cfg →
      (lookupField (configInputFields raw) "baseUrl" = none → cfg.baseUrl = none) ∧
      (lookupField (configInputFields raw) "account" = none → cfg.account = "default") ∧
      (lookupField (configInputFields raw) "allowedParameters" = none →
        cfg.allowedParameters = []) ∧
      (lookupField (configInputFields raw) "timeoutMs" = none → cfg.timeoutMs = 30000) ∧
      (lookupField (configInputFields raw) "auditLog" = none → cfg.auditLog = true)) := by
  refine ⟨?_, ?_, ?_⟩
  · intro h
    simp [parseJenkinsConfig, h, parseBaseUrl, parseAccount, parseAllowedParameters,
      parseTimeoutMs, parseAuditLog, lookupField]
  · rw [parseJenkinsConfig_ok_iff]
    unfold SuppliedFieldsValid
    rw [parseBaseUrl_ok_iff, parseAccount_ok_iff, parseAllowedParameters_ok_iff,
      parseTimeoutMs_ok_iff, parseAuditLog_ok_iff]
  · intro cfg hcfg
    unfold parseJenkinsConfig at hcfg
    revert hcfg
    cases hbu : parseBaseUrl validUrl (configInputFields raw) <;>
      cases hac : parseAccount (configInputFields raw) <;>
      cases hap : parseAllowedParameters (configInputFields raw) <;>
      cases htm : parseTimeoutMs (configInputFields raw) <;>
      cases hal : parseAuditLog (configInputFields raw) <;>
      intro hcfg <;> simp at hcfg
    subst hcfg
    refine ⟨?_, ?_, ?_, ?_, ?_⟩
    · intro habs
      unfold parseBaseUrl at hbu
      rw [habs] at hbu
      cases hbu
      rfl
    · intro habs
      unfold parseAccount at hac
      rw [habs] at hac
      cases hac
      rfl
    · intro habs
      unfold parseAllowedParameters at hap
      rw [habs] at hap
      cases hap
      rfl
    · intro habs
      unfold parseTimeoutMs at htm
      rw [habs] at htm
      cases htm
      rfl
    · intro habs
      unfold parseAuditLog at hal
      rw [habs] at hal
      cases hal
      rfl

theorem c3_witness :
    parseJenkinsConfig (fun _ => true) (.jarr [.jint 1]) =
      .ok { baseUrl := none, account := "default", allowedParameters := [],
            timeoutMs := 30000, auditLog := true } :=
  (c3_resolver_amended (fun _ => true) (.jarr [.jint 1])).1 rfl

/-- Claim C6 (counterexample): a response with two property blocks, each
carrying one parameter definition, yields the definitions of BOTH blocks —
the first list does not win and later blocks are not ignored. -/
theorem c6_counterexample :
    extractParameters
        [("property", .jarr [
          .jobj [("parameterDefinitions",
            .jarr [.jobj [("name", .jstr "A"), ("type", .jstr "T")]])],
          .jobj [("parameterDefinitions",
            .jarr [.jobj [("name", .jstr "B"), ("type", .jstr "T")]])]])] =
      some [{ name := "A", type := "T", description := none,
              defaultValue := none, choices := none },
            { name := "B", type := "T", description := none,
              defaultValue := none, choices := none }] ∧
    ([{ name := "A", type := "T", description := none,
        defaultValue := none, choices := none },
      { name := "B", type := "T", description := none,
        defaultValue := none, choices := none }] : List JenkinsParameter) ≠
      [{ name := "A", type := "T", description := none,
         defaultValue := none, choices := none }] :=
  ⟨rfl, by decide⟩

/-- Claim C6 (amended): for every response whose `property` field is an
array, the returned parameter list is the concatenation, in order, of the
definitions extracted from every property block carrying a
`parameterDefinitions` list (not just the first such list), and it is
`undefined` exactly when that concatenation is empty. -/
theorem c6_extract_concatenates (data : List (String × JValue)) (props : List JValue)
    (h : lookupField data "property" = some (.jarr props)) :
    extractParameters data =
      (if (props.map defsOfProperty).flatten = [] then none
       else some (props.map defsOfProperty).flatten) := by
  have hfold : ∀ qs : List JValue,
      qs.foldr (fun prop acc => defsOfProperty prop ++ acc) [] =
        (qs.map defsOfProperty).flatten := by
    intro qs
    induction qs with
    | nil => rfl
    | cons p ps ih => simp [ih]
  simp only [extractParameters, h, hfold props]

theorem c6_witness : extractParameters [("property", JValue.jarr [])] = none := by
  simpa using c6_extract_concatenates [("property", .jarr [])] [] rfl

/-- Claim C8 (counterexample): when both attempts fail, the surfaced error
is the SECOND attempt's message, not the first failure's message. -/
theorem c8_counterexample :
    testConnection (.error "first failure") (.error "second failure") =
      { ok := false, version := none, error := some "second failure" } ∧
    some ("second failure" : String) ≠ some "first failure" :=
  ⟨rfl, by decide⟩

/-- Claim C8 (amended): `testConnection` tries the authenticated who-am-I
endpoint first; success with a non-empty `fullName F` gives
`{ok: true, version: "Authenticated as F"}` (an empty or missing
`fullName` is falsy and gives `{ok: true, version: "Authenticated"}`); on
failure the fallback's `{nodeDescription: "X"}` gives
`{ok: true, version: "X"}`; when both attempts fail the result is
`{ok: false}` carrying the second (fallback) attempt's failure message,
the first attempt's message being discarded; it never throws (it is a
total function of the two outcomes). -/
theorem c8_testConnection_amended
    (basicOutcome : Except String (List (String × JValue)))
    (meData data : List (String × JValue)) (f x e1 e2 : String) :
    (lookupField meData "fullName" = some (.jstr f) → f ≠ "" →
      testConnection (.ok meData) basicOutcome =
        { ok := true, version := some ("Authenticated as " ++ f), error := none }) ∧
    (lookupField meData "fullName" = some (.jstr "") ∨
        lookupField meData "fullName" = none →
      testConnection (.ok meData) basicOutcome =
        { ok := true, version := some "Authenticated", error := none }) ∧
    (lookupField data "nodeDescription" = some (.jstr x) →
      testConnection (.error e1) (.ok data) =
        { ok := true, version := some x, error := none }) ∧
    testConnection (.error e1) (.error e2) =
      { ok := false, version := none, error := some e2 } := by
  refine ⟨?_, ?_, ?_, rfl⟩
  · intro h hne
    simp [testConnection, h, hne]
  · rintro (h | h) <;> simp [testConnection, h]
  · intro h
    simp [testConnection, h]

theorem c8_witness :
    testConnection (.error "boom") (.ok [("nodeDescription", JValue.jstr "X")]) =
      { ok := true, version := some "X", error := none } :=
  (c8_testConnection_amended (.ok [("nodeDescription", .jstr "X")]) []
    [("nodeDescription", .jstr "X")] "" "X" "boom" "").2.2.1 rfl

/-- Claim C9 (counterexample): with auditing enabled, a mutating
invocation denied by the whitelist emits NO audit line — the audit record
is written only after the whitelist check passes, refuting "an audit line
is emitted even for mutating invocations that are denied by the
whitelist". -/
theorem c9_counterexample :
    (triggerBuildExecute
        { baseUrl := none, account := "default", allowedParameters := [],
          timeoutMs := 30000, auditLog := true }
        (.ok ()) (some (.jstr "job1")) (some [("FOO", "x")])).audit = [] ∧
    (triggerBuildExecute
        { baseUrl := none, account := "default", allowedParameters := [],
          timeoutMs := 30000, auditLog := true }
        (.ok ()) (some (.jstr "job1")) (some [("FOO", "x")])).result =
      .error (authzErrorMsg "FOO" []) ∧
    ({ baseUrl := none, account := "default", allowedParameters := [],
       timeoutMs := 30000, auditLog := true } : JenkinsConfig).auditLog = true :=
  ⟨rfl, rfl, rfl⟩

/-- Claim C9 (amended): when auditing is enabled, every tool invocation
that passes its input validation and (for the mutating tools) the
whitelist check emits exactly one audit record naming the operation,
before the client dispatch; invocations rejected before dispatch emit
none; when auditing is disabled no record is ever emitted — for all six
action-surface operations. -/
theorem c9_audit_amended (cfg : JenkinsConfig) (clientOutcome : Except String Unit)
    (jobRaw paramRaw valueRaw folderRaw limitRaw buildRaw : Option JValue)
    (buildParams : Option (List (String × String))) :
    AuditDisciplined "jenkins_list_jobs" cfg.auditLog
      (listJobsExecute cfg clientOutcome folderRaw) ∧
    AuditDisciplined "jenkins_get_job_info" cfg.auditLog
      (getJobInfoExecute cfg clientOutcome jobRaw) ∧
    AuditDisciplined "jenkins_list_builds" cfg.auditLog
      (listBuildsExecute cfg clientOutcome jobRaw limitRaw) ∧
    AuditDisciplined "jenkins_get_build_info" cfg.auditLog
      (getBuildInfoExecute cfg clientOutcome jobRaw buildRaw) ∧
    AuditDisciplined "jenkins_trigger_build" cfg.auditLog
      (triggerBuildExecute cfg clientOutcome jobRaw buildParams) ∧
    AuditDisciplined "jenkins_update_parameter" cfg.auditLog
      (updateParameterExecute cfg clientOutcome jobRaw paramRaw valueRaw) := by
  refine ⟨?_, ?_, ?_, ?_, ?_, ?_⟩
  · exact auditDisciplined_dispatch _ _ _ _
  · simp only [getJobInfoExecute]
    split
    · exact auditDisciplined_denied _ _ _
    · exact auditDisciplined_dispatch _ _ _ _
  · simp only [listBuildsExecute]
    split
    · exact auditDisciplined_denied _ _ _
    · exact auditDisciplined_dispatch _ _ _ _
  · simp only [getBuildInfoExecute]
    split
    · exact auditDisciplined_denied _ _ _
    · split
      · exact auditDisciplined_dispatch _ _ _ _
      · exact auditDisciplined_dispatch _ _ _ _
      · exact auditDisciplined_denied _ _ _
  · simp only [triggerBuildExecute]
    split
    · exact auditDisciplined_denied _ _ _
    · split
      · exact auditDisciplined_denied _ _ _
      · exact auditDisciplined_dispatch _ _ _ _
  · simp only [updateParameterExecute]
    split
    · exact auditDisciplined_denied _ _ _
    · split
      · exact auditDisciplined_denied _ _ _
      · split
        · exact auditDisciplined_denied _ _ _
        · exact auditDisciplined_dispatch _ _ _ _

theorem c9_witness :
    (listJobsExecute
        { baseUrl := none, account := "default", allowedParameters := [],
          timeoutMs := 30000, auditLog := false } (.ok ()) none).audit = [] :=
  ((c9_audit_amended
      { baseUrl := none, account := "default", allowedParameters := [],
        timeoutMs := 30000, auditLog := false }
      (.ok ()) none none none none none none none).1).1 rfl

theorem c10_witness : ("admin" : String) ≠ "" ∧ ("tok" : String) ≠ "" :=
  c10_no_empty_credentials { jenkinsUser := some "admin", jenkinsToken := some "tok" }
    "linux" "default" (fun _ => none) { user := "admin", token := "tok" } (by decide)

/-! ## Injectivity of job-path normalization (claim C7) -/

theorem char_toNat_lt (c : Char) : c.toNat < 1114112 := by
  have h := c.valid
  unfold Nat.isValidChar at h
  unfold Char.toNat
  omega

theorem char_toNat_inj (c d : Char) (h : c.toNat = d.toNat) : c = d := by
  apply Char.eq_of_val_eq
  apply UInt32.toNat.inj h

theorem char_ofNat_toNat (k : Nat) (h : k < 55296) : (Char.ofNat k).toNat = k := by
  have hv : k.isValidChar := Or.inl h
  simp [Char.ofNat, hv, Char.toNat, Char.ofNatAux, UInt32.toNat, BitVec.toNat_ofNatLt]

theorem hexDigit_toNat (n : Nat) (h : n < 16) :
    (hexDigit n).toNat = if n < 10 then 48 + n else 55 + n := by
  unfold hexDigit
  by_cases h10 : n < 10
  · rw [if_pos h10, if_pos h10, char_ofNat_toNat _ (by omega)]
  · rw [if_neg h10, if_neg h10, char_ofNat_toNat _ (by omega)]

theorem hexDigit_inj (a b : Nat) (ha : a < 16) (hb : b < 16)
    (h : hexDigit a = hexDigit b) : a = b := by
  have hn := congrArg Char.toNat h
  rw [hexDigit_toNat a ha, hexDigit_toNat b hb] at hn
  by_cases h1 : a < 10 <;> by_cases h2 : b < 10 <;> simp [h1, h2] at hn <;> omega

theorem utf8EncodeChar_shape (c : Char) :
    ∃ b bs, utf8EncodeChar c = b :: bs ∧ b < 256 ∧
      bs.length = (if b < 128 then 0 else if b < 224 then 1 else if b < 240 then 2 else 3) := by
  have hc := char_toNat_lt c
  unfold utf8EncodeChar
  split_ifs with h1 h2 h3
  · exact ⟨c.toNat, [], rfl, by omega, by rw [if_pos h1]; rfl⟩
  · refine ⟨192 + c.toNat / 64, [128 + c.toNat % 64], rfl, by omega, ?_⟩
    rw [if_neg (by omega), if_pos (by omega)]
    rfl
  · refine ⟨224 + c.toNat / 4096, [128 + c.toNat / 64 % 64, 128 + c.toNat % 64], rfl,
      by omega, ?_⟩
    rw [if_neg (by omega), if_neg (by omega), if_pos (by omega)]
    rfl
  · refine ⟨240 + c.toNat / 262144,
      [128 + c.toNat / 4096 % 64, 128 + c.toNat / 64 % 64, 128 + c.toNat % 64], rfl,
      by omega, ?_⟩
    rw [if_neg (by omega), if_neg (by omega), if_neg (by omega)]
    rfl

theorem utf8EncodeChar_bytes_lt (c : Char) : ∀ b ∈ utf8EncodeChar c, b < 256 := by
  have hc := char_toNat_lt c
  unfold utf8EncodeChar
  split_ifs <;> intro b hb <;> simp at hb <;> omega

theorem utf8EncodeChar_inj (c d : Char)
    (h : utf8EncodeChar c = utf8EncodeChar d) : c = d := by
  have hc := char_toNat_lt c
  have hd := char_toNat_lt d
  apply char_toNat_inj
  unfold utf8EncodeChar at h
  split_ifs at h <;> simp at h <;> omega

theorem percentChain_cons (b : Nat) (bs : List Nat) :
    percentChain (b :: bs) = '%' :: hexDigit (b / 16) :: hexDigit (b % 16) :: percentChain bs :=
  rfl

theorem percentChain_prefix_inj (bs₁ : List Nat) :
    ∀ (bs₂ : List Nat) (x y : List Char), (∀ b ∈ bs₁, b < 256) → (∀ b ∈ bs₂, b < 256) →
    bs₁.length = bs₂.length →
    percentChain bs₁ ++ x = percentChain bs₂ ++ y → bs₁ = bs₂ ∧ x = y := by
  induction bs₁ with
  | nil =>
    intro bs₂ x y _ _ hlen heq
    cases bs₂ with
    | nil => exact ⟨rfl, by simpa [percentChain] using heq⟩
    | cons b bs => simp at hlen
  | cons a as ih =>
    intro bs₂ x y h1 h2 hlen heq
    cases bs₂ with
    | nil => simp at hlen
    | cons b bs =>
      rw [percentChain_cons, percentChain_cons] at heq
      simp only [List.cons_append, List.cons.injEq] at heq
      obtain ⟨-, e1, e2, e3⟩ := heq
      have ha : a < 256 := h1 a (by simp)
      have hb : b < 256 := h2 b (by simp)
      have hdiv : a / 16 = b / 16 := hexDigit_inj _ _ (by omega) (by omega) e1
      have hmod : a % 16 = b % 16 := hexDigit_inj _ _ (by omega) (by omega) e2
      have hab : a = b := by omega
      obtain ⟨hrest, hxy⟩ := ih bs x y (fun q hq => h1 q (by simp [hq]))
        (fun q hq => h2 q (by simp [hq])) (by simpa using hlen) e3
      exact ⟨by rw [hab, hrest], hxy⟩

theorem encodeChar_shape (c : Char) :
    ∃ h t, encodeChar c = h :: t ∧ h ≠ '/' := by
  unfold encodeChar
  by_cases hu : isUriUnreserved c
  · refine ⟨c, [], by rw [if_pos hu], ?_⟩
    intro hc
    subst hc
    exact absurd hu (by decide)
  · obtain ⟨b, bs, hsh, hb, hlen⟩ := utf8EncodeChar_shape c
    rw [if_neg hu, hsh, percentChain_cons]
    exact ⟨'%', _, rfl, by decide⟩

theorem encodeChar_prefix_inj (c d : Char) (x y : List Char)
    (h : encodeChar c ++ x = encodeChar d ++ y) : c = d ∧ x = y := by
  unfold encodeChar at h
  by_cases hc : isUriUnreserved c <;> by_cases hd : isUriUnreserved d
  · rw [if_pos hc, if_pos hd] at h
    simpa using h
  · rw [if_pos hc, if_neg hd] at h
    obtain ⟨b, bs, hsh, -, -⟩ := utf8EncodeChar_shape d
    rw [hsh, percentChain_cons] at h
    simp only [List.cons_append, List.cons.injEq] at h
    rw [h.1] at hc
    exact absurd hc (by decide)
  · rw [if_neg hc, if_pos hd] at h
    obtain ⟨b, bs, hsh, -, -⟩ := utf8EncodeChar_shape c
    rw [hsh, percentChain_cons] at h
    simp only [List.cons_append, List.cons.injEq] at h
    rw [← h.1] at hd
    exact absurd hd (by decide)
  · rw [if_neg hc, if_neg hd] at h
    obtain ⟨b, bs, hshc, hbc, hlenc⟩ := utf8EncodeChar_shape c
    obtain ⟨b', bs', hshd, hbd, hlend⟩ := utf8EncodeChar_shape d
    rw [hshc, hshd, percentChain_cons, percentChain_cons] at h
    simp only [List.cons_append, List.cons.injEq] at h
    obtain ⟨-, e1, e2, e3⟩ := h
    have hb1 : b = b' := by
      have q1 := hexDigit_inj _ _ (by omega) (by omega) e1
      have q2 := hexDigit_inj _ _ (by omega) (by omega) e2
      omega
    subst hb1
    have hlen : bs.length = bs'.length := by rw [hlenc, hlend]
    obtain ⟨hbs, hxy⟩ := percentChain_prefix_inj bs bs' x y
      (fun q hq => utf8EncodeChar_bytes_lt c q (by rw [hshc]; simp [hq]))
      (fun q hq => utf8EncodeChar_bytes_lt d q (by rw [hshd]; simp [hq]))
      hlen e3
    refine ⟨utf8EncodeChar_inj c d (by rw [hshc, hshd, hbs]), hxy⟩

theorem encodeList_sentinel_inj (u : List Char) :
    ∀ (v : List Char) (x y : List Char),
    (x = [] ∨ ∃ t, x = '/' :: t) → (y = [] ∨ ∃ t, y = '/' :: t) →
    encodeList u ++ x = encodeList v ++ y → u = v ∧ x = y := by
  induction u with
  | nil =>
    intro v x y hx hy heq
    cases v with
    | nil => exact ⟨rfl, by simpa [encodeList] using heq⟩
    | cons d v' =>
      exfalso
      simp only [encodeList, List.nil_append, List.append_assoc] at heq
      obtain ⟨h0, t0, hsh, hne⟩ := encodeChar_shape d
      rw [hsh] at heq
      rcases hx with rfl | ⟨t, rfl⟩
      · simp at heq
      · simp only [List.cons_append, List.cons.injEq] at heq
        exact hne heq.1.symm
  | cons c u' ih =>
    intro v x y hx hy heq
    cases v with
    | nil =>
      exfalso
      simp only [encodeList, List.nil_append, List.append_assoc] at heq
      obtain ⟨h0, t0, hsh, hne⟩ := encodeChar_shape c
      rw [hsh] at heq
      rcases hy with rfl | ⟨t, rfl⟩
      · simp at heq
      · simp only [List.cons_append, List.cons.injEq] at heq
        exact hne heq.1
    | cons d v' =>
      simp only [encodeList, List.append_assoc] at heq
      obtain ⟨hcd, hrest⟩ := encodeChar_prefix_inj c d _ _ heq
      obtain ⟨huv, hxy⟩ := ih v' x y hx hy hrest
      exact ⟨by rw [hcd, huv], hxy⟩

theorem normalizeSegments_cons_data (s : String) (rest : List String) :
    (normalizeSegments (s :: rest)).data =
      "/job/".data ++ (encodeList s.data ++ (normalizeSegments rest).data) := by
  show ("/job/" ++ encodeURIComponent s ++ normalizeSegments rest).data = _
  rw [String.data_append, String.data_append, List.append_assoc]
  rfl

theorem normalizeSegments_shape (segs : List String) :
    (normalizeSegments segs).data = [] ∨
      ∃ t, (normalizeSegments segs).data = '/' :: t := by
  cases segs with
  | nil => exact Or.inl rfl
  | cons s rest =>
    right
    rw [normalizeSegments_cons_data]
    exact ⟨"job/".data ++ (encodeList s.data ++ (normalizeSegments rest).data), rfl⟩

/-- `normalizeSegments` is injective on all segment sequences: segments
are separated by `/job/` markers and `encodeURIComponent` escapes every
`/` inside a segment. -/
theorem normalizeSegments_inj (a : List String) :
    ∀ b, normalizeSegments a = normalizeSegments b → a = b := by
  induction a with
  | nil =>
    intro b h
    cases b with
    | nil => rfl
    | cons t b' =>
      exfalso
      have hd := congrArg String.data h
      rw [normalizeSegments_cons_data] at hd
      simp [normalizeSegments] at hd
  | cons s a' ih =>
    intro b h
    cases b with
    | nil =>
      exfalso
      have hd := congrArg String.data h
      rw [normalizeSegments_cons_data] at hd
      simp [normalizeSegments] at hd
    | cons t b' =>
      have hd := congrArg String.data h
      rw [normalizeSegments_cons_data, normalizeSegments_cons_data] at hd
      have hd2 := List.append_cancel_left hd
      obtain ⟨hseg, hrest⟩ := encodeList_sentinel_inj s.data t.data _ _
        (normalizeSegments_shape a') (normalizeSegments_shape b') hd2
      rw [String.ext hseg, ih b' (String.ext hrest)]

/-- Claim C7: job-path normalization is total and deterministic, injective
on well-formed segment sequences (distinct sequences give distinct
normalized strings), and maps `"folder/my-job"` to
`"/job/folder/job/my-job"`. -/
theorem c7_normalization (a b : List String) (p : String)
    (ha : WellFormedSegs a) (hb : WellFormedSegs b) :
    (normalizeSegments a = normalizeSegments b → a = b) ∧
    normalizeJobPath p = normalizeJobPath p ∧
    normalizeJobPath "folder/my-job" = "/job/folder/job/my-job" :=
  ⟨fun h => normalizeSegments_inj a b h, rfl, by decide⟩

theorem c7_witness :
    (["folder", "my-job"] : List String) = ["folder", "my-job"] ∧
    normalizeJobPath "folder/my-job" = "/job/folder/job/my-job" :=
  ⟨(c7_normalization ["folder", "my-job"] ["folder", "my-job"] "x"
      (by decide) (by decide)).1 rfl,
   (c7_normalization ["folder", "my-job"] ["folder", "my-job"] "x"
      (by decide) (by decide)).2.2⟩

end Jenkins
